import Mathlib

/-!
Verification development for the `episode-in-epub` tool: a shallow
embedding of its pagination-resolution and HTML-to-XHTML sanitization
pipeline (`src/parser.rs`, `src/epub.rs`) together with theorems about
the behaviour of those functions.
-/

/-! ## Generic string machinery (models of the Rust `str` operations used) -/

/-- Decides whether `p` is a prefix of `s` (character lists). -/
def hasPrefixL : List Char → List Char → Bool
  | [], _ => true
  | _ :: _, [] => false
  | p :: ps, c :: cs => p == c && hasPrefixL ps cs

/-- Decides whether `pat` occurs as a contiguous substring of `s`:
model of Rust `str::contains` with a string pattern. -/
def containsSubL (pat : List Char) : List Char → Bool
  | [] => hasPrefixL pat []
  | c :: cs => hasPrefixL pat (c :: cs) || containsSubL pat cs

/-- String version of `containsSubL`. -/
def containsSub (pat s : String) : Bool :=
  containsSubL pat.data s.data

/-- Number of positions of `s` at which `pat` starts (for a non-empty
`pat`): the count of occurrences of `pat` as a substring of `s`. -/
def countOccL (pat : List Char) : List Char → Nat
  | [] => 0
  | c :: cs => (if hasPrefixL pat (c :: cs) then 1 else 0) + countOccL pat cs

/-- Model of Rust `str::split_once` with a single-character pattern:
splits at the first occurrence of `sep`, returning the parts before and
after it, or `none` when `sep` does not occur. -/
def splitOnceCharL (sep : Char) : List Char → Option (List Char × List Char)
  | [] => none
  | c :: l =>
    if c = sep then some ([], l)
    else
      match splitOnceCharL sep l with
      | none => none
      | some (a, b) => some (c :: a, b)

/-- String version of `splitOnceCharL`. -/
def splitOnceChar (sep : Char) (s : String) : Option (String × String) :=
  (splitOnceCharL sep s.data).map fun ab => (⟨ab.1⟩, ⟨ab.2⟩)

/-- Model of Rust `str::split` with a single-character pattern: the
list of the (possibly empty) runs between occurrences of `sep`; always
non-empty, `[""]` for the empty string. -/
def splitOnCharL (sep : Char) : List Char → List (List Char)
  | [] => [[]]
  | c :: l =>
    if c = sep then [] :: splitOnCharL sep l
    else
      match splitOnCharL sep l with
      | [] => [[c]]
      | a :: rest => (c :: a) :: rest

/-- String version of `splitOnCharL`. -/
def splitOnChar (sep : Char) (s : String) : List String :=
  (splitOnCharL sep s.data).map fun l => ⟨l⟩

/-- Model of Rust `str::parse::<usize>`: an optional leading `+`, then
one or more ASCII digits and nothing else; the value must fit in 64-bit
`usize`.  Any other shape is a `ParseIntError`. -/
def parseUsize (s : String) : Option Nat :=
  let digits :=
    match s.data with
    | '+' :: rest => rest
    | l => l
  if digits.isEmpty then none
  else if digits.all Char.isDigit then
    let n := digits.foldl (fun acc c => acc * 10 + (c.toNat - 48)) 0
    if n < 2 ^ 64 then some n else none
  else none

/-- Model of Rust `str::to_uppercase` restricted to ASCII input (the
story-id tokens this program uppercases are ASCII alphanumerics, on
which Rust's Unicode uppercasing and ASCII uppercasing agree). -/
def asciiUpper (s : String) : String :=
  ⟨s.data.map Char.toUpper⟩

/-! ## The sanitizer's data model (`src/epub.rs`) -/

/-- Model of a parsed HTML node as produced by `scraper`'s fragment
parser, restricted to the two kinds the sanitizer's loop handles
(`v.is_element()` / `v.is_text()`); every other scraper node kind hits
the `unreachable!()` branch and is outside this model. An element
carries its tag name, its attribute list (name, value) in the order the
parser stores them, and its children. -/
inductive Node where
  | element (name : String) (attrs : List (String × String)) (children : List Node)
  | text (s : String)
deriving Repr

mutual
/-- Pre-order (document-order) traversal of one node's subtree,
including the node itself: `ego_tree::NodeRef::descendants` restricted
to the subtree rooted at the node. -/
def preorderNode : Node → List Node
  | .element name attrs children => .element name attrs children :: preorderList children
  | .text s => [.text s]

/-- Pre-order traversal of a forest, concatenating the subtree
traversals in order. -/
def preorderList : List Node → List Node
  | [] => []
  | n :: l => preorderNode n ++ preorderList l
end

/-- Escape of one character inside Rust's `Debug` formatting of a
string slice, restricted to the escapes that can occur in this
program's attribute values (quote, backslash and the common control
characters; the full `escape_debug` also escapes other non-printable
codepoints, which never occur here). -/
def rustCharEscapeDebug (c : Char) : String :=
  if c = '"' then "\\\""
  else if c = '\\' then "\\\\"
  else if c = '\n' then "\\n"
  else if c = '\r' then "\\r"
  else if c = '\t' then "\\t"
  else String.singleton c

/-- Concatenated escape of every character of a string. -/
def escapeDebugStr : List Char → String
  | [] => ""
  | c :: l => rustCharEscapeDebug c ++ escapeDebugStr l

/-- Rust `{:?}` formatting of a string slice: the value surrounded by
double quotes, each character escaped. -/
def rustStrDebug (s : String) : String :=
  "\"" ++ escapeDebugStr s.data ++ "\""

/-- The attribute part of the `Debug` formatting of a
`scraper::node::Element`: for each attribute a space, the attribute
name, `=` and the `Debug`-quoted value. -/
def attrsDebug : List (String × String) → String
  | [] => ""
  | kv :: rest => " " ++ kv.1 ++ "=" ++ rustStrDebug kv.2 ++ attrsDebug rest

/-- Rust `{:?}` formatting of a `scraper::node::Element`: `<` + name +
attributes + `>`.  Only the start tag is rendered; the `Debug` impl
knows nothing of children or end tags. -/
def elementDebug (name : String) (attrs : List (String × String)) : String :=
  "<" ++ name ++ attrsDebug attrs ++ ">"

/-- The denylist test of `sanitize_to_meet_xhtml`:
`e.name() == "font" || e.name() == "b" || e.name() == "span"`. -/
def denylisted (name : String) : Bool :=
  name == "font" || name == "b" || name == "span"

/-- What one loop iteration of `sanitize_to_meet_xhtml` appends to
`result` for the visited node: nothing for a denylisted element (the
`continue`), the literal `<br />` for a `br` element, the `Debug`
start tag for any other element, and the literal text for a text
node. -/
def emitNode : Node → String
  | .element name attrs _ =>
      if denylisted name then ""
      else if name == "br" then "<br />"
      else elementDebug name attrs
  | .text s => s

/-- The sanitizer's loop: `result` starts as the accumulator and each
visited node's emission is pushed onto it. -/
def sanitizeLoop (acc : String) : List Node → String
  | [] => acc
  | n :: l => sanitizeLoop (acc ++ emitNode n) l

/-- Embedding of `sanitize_to_meet_xhtml` from `src/epub.rs`, shallowly embedded
over the parsed fragment: the input string's parse
(`Html::parse_fragment`) yields a synthetic `html` root whose children
are `frag`; `.root_element().descendants().skip(1)` is exactly the
flat pre-order listing of that forest, and the loop folds `emitNode`
over it starting from the empty string. -/
def sanitize_to_meet_xhtml (frag : List Node) : String :=
  sanitizeLoop "" (preorderList frag)

/-- Flattened emission of a node list: the concatenation of the
per-node emissions. -/
def emitList : List Node → String
  | [] => ""
  | n :: l => emitNode n ++ emitList l

/-- The fixed text of `surround_with_xhtml_header` before the title. -/
def xhtmlShellPre : String :=
  "<?xml version=\"1.0\" encoding=\"UTF-8\"?>\n<!DOCTYPE html>\n<html xmlns=\"http://www.w3.org/1999/xhtml\" xmlns:epub=\"http://www.idpf.org/2007/ops\">\n<head>\n  <meta charset = \"utf-8\" />\n  <meta name=\"generator\" content=\"episode-in-epub\" />"

/-- The fixed text of `surround_with_xhtml_header` between the title
and the sanitized body. -/
def xhtmlShellMid : String :=
  "<link rel=\"stylesheet\" type=\"text/css\" href=\"stylesheet.css\" />\n</head>\n<body>"

/-- The fixed text of `surround_with_xhtml_header` after the body. -/
def xhtmlShellPost : String :=
  "</body>\n</html>"

/-- Embedding of `surround_with_xhtml_header` from `src/epub.rs`: wraps the
sanitized body in the minimal XHTML document shell. -/
def surround_with_xhtml_header (title : String) (body_html : List Node) : String :=
  xhtmlShellPre ++ "<title>" ++ title ++ "</title>" ++ xhtmlShellMid ++ "\n" ++
    sanitize_to_meet_xhtml body_html ++ "\n" ++ xhtmlShellPost

/-! ## Reference definitions for the sanitizer claims -/

/-- A node is a text node or a denylisted (`font`/`b`/`span`) element.
A fragment all of whose pre-order nodes satisfy this is exactly a
forest of `font`/`b`/`span` wrapper elements around text. -/
def textOrDenylisted : Node → Bool
  | .text _ => true
  | .element name _ _ => denylisted name

/-- Concatenation of the contents of the text nodes of a list, in
order. -/
def allTextL : List Node → String
  | [] => ""
  | .text s :: l => s ++ allTextL l
  | .element _ _ _ :: l => allTextL l

/-- The attribute part of a strict XHTML serialization: every value
double-quoted. -/
def attrsStrict : List (String × String) → String
  | [] => ""
  | kv :: rest => " " ++ kv.1 ++ "=\"" ++ kv.2 ++ "\"" ++ attrsStrict rest

mutual
/-- Reference strict-XHTML serialization of a node, following the
spec's description of an "already-strict XHTML body (fully quoted
attributes)": childless elements are self-closed, elements with
children carry a matching end tag, text is literal.  This is the
spec-side definition that the sanitizer's output is compared with; it
is not taken from the source. -/
def serializeStrict : Node → String
  | .element name attrs [] => "<" ++ name ++ attrsStrict attrs ++ " />"
  | .element name attrs (c :: cs) =>
      "<" ++ name ++ attrsStrict attrs ++ ">" ++ serializeStrictList (c :: cs) ++
        "</" ++ name ++ ">"
  | .text s => s

/-- Strict XHTML serialization of a forest. -/
def serializeStrictList : List Node → String
  | [] => ""
  | n :: l => serializeStrict n ++ serializeStrictList l
end

/-- A node that an already-strict XHTML body may contain without the
sanitizer altering it: character data free of markup-significant
characters (`<`, `&`, whose presence would make the HTML parse differ
from the literal text), or a bare attribute-less self-closed `br`.
The HTML fragment parse of the strict serialization of such a forest
is the forest itself. -/
def flatXhtmlNode : Node → Bool
  | .text s => s.data.all fun c => c != '<' && c != '&'
  | .element name attrs children => name == "br" && attrs.isEmpty && children.isEmpty

/-- Characters allowed in the tag and attribute names of the parsed
HTML elements this development quantifies over (the HTML parser only
produces names made of alphanumeric characters for ordinary markup). -/
def tagChar (c : Char) : Bool :=
  c.isAlphanum

/-- An attribute whose name is alphanumeric and whose value contains
no `<`. -/
def attrSafe (kv : String × String) : Bool :=
  kv.1.data.all tagChar && kv.2.data.all fun c => c != '<'

/-- Nodes over which the `<br />`-counting claim is stated: text nodes
free of `<` (the HTML tokenizer never leaves a `<br` inside character
data) and elements with a non-empty alphanumeric name and safe
attributes. -/
def brSafeNode : Node → Bool
  | .text s => s.data.all fun c => c != '<'
  | .element name attrs _ =>
      name != "" && name.data.all tagChar && attrs.all attrSafe

/-- The canonical self-closed line break emitted by the sanitizer, as
a character list. -/
def brPat : List Char :=
  ['<', 'b', 'r', ' ', '/', '>']

/-- Number of `br` elements in a node list. -/
def countBr (l : List Node) : Nat :=
  l.countP fun n =>
    match n with
    | .element name _ _ => name == "br"
    | .text _ => false

/-! ## The pagination resolver (`src/parser.rs`) -/

/-- Result of `get_page_range`: a returned `Range<usize>` (modelled as
a start/end pair), the propagated `ParseIntError` of
`page_count_str.parse::<usize>()?`, or the panic of
`inner_html.split_once(" ").unwrap()` on a matching container without
a space. -/
inductive PageRangeResult where
  | ok (range : Nat × Nat)
  | parseErr
  | panicked
deriving Repr, DecidableEq

/-- Embedding of `get_page_range` from `src/parser.rs`, shallowly embedded: the
input is the list of `inner_html()` strings of the document's
`div[style="float:left"]` elements in document order.  The loop
returns `0..page_count` for the first one containing the glyph `頁`,
splitting its inner HTML at the first space and parsing the part
before it as a `usize`; if none matches it falls back to `0..1`. -/
def get_page_range : List String → PageRangeResult
  | [] => .ok (0, 1)
  | innerHtml :: rest =>
    if containsSub "頁" innerHtml then
      match splitOnceChar ' ' innerHtml with
      | none => .panicked
      | some (pageCountStr, _) =>
        match parseUsize pageCountStr with
        | none => .parseErr
        | some pageCount => .ok (0, pageCount)
    else get_page_range rest

/-- Result of `get_story_id`: a returned id, or a panic (each of the
function's `unwrap()` calls — on the `find`'s result, on the
`skip(3).next()` and on the `split_once(".")` — panics instead of
returning an `Err`). -/
inductive StoryIdResult where
  | ok (id : String)
  | panicked
deriving Repr, DecidableEq

/-- The qualification test of `get_story_id`'s `find`:
`node.value().attr("src").map_or(false, |img_src| img_src != "")`. -/
def srcQualifies : Option String → Bool
  | none => false
  | some s => s != ""

/-- Embedding of `get_story_id` from `src/parser.rs`, shallowly embedded: the input
is the list of `src` attributes (absent attribute = `none`) of the
document's `img.roundcorner` elements in document order.  The first
image with a non-empty `src` is taken; its URL is split on `/`, the
fourth component is the file name, the part before its first `.` is
uppercased and returned.  Every failure along the way is an
`unwrap()` panic. -/
def get_story_id (imgSrcs : List (Option String)) : StoryIdResult :=
  match imgSrcs.find? srcQualifies with
  | some (some imgSrc) =>
    match (splitOnChar '/' imgSrc).drop 3 with
    | [] => .panicked
    | imgName :: _ =>
      match splitOnceChar '.' imgName with
      | none => .panicked
      | some (id, _) => .ok (asciiUpper id)
  | _ => .panicked

/-! ## The story walker (`src/parser.rs`) -/

/-- Embedding of `StoryInfo` from `src/parser.rs`; `page_range : Range<usize>` is
modelled as a (start, end) pair. -/
structure StoryInfo where
  title : String
  id : String
  url : String
  page_range : Nat × Nat

/-- Embedding of `GetPageResponse` from `src/parser.rs`: the ~25-field record the
`GetPage` endpoint's JSON deserializes into; `i32` fields are modelled
as `Int`. -/
structure GetPageResponse where
  fc : String
  fc1 : String
  fc2 : String
  bg : String
  vmobishift : String
  parabgop : String
  imagesource : String
  embedimgsource : String
  photographer : String
  dmmodel : String
  ident : Int
  height : Int
  htmlbody : String
  title : String
  vrtptitle : Int
  pagelock : Int
  pwhint : String
  keyinput : Int
  pageaccesstype : Int
  mypraise : Int
  praisecount : Int
  uid : String
  todayhits : String
  totalhits : String
  rate : String
  commentsize : Int
  gatherst : Int
  story_pw_pass : Bool

/-- The loop of `parse_story`: walks the given page indices in order,
asking the fetch oracle for each; a successful fetch is pushed, the
first failure breaks the loop. `post_get_page_api` is network I/O and
is modelled as an oracle — `some` is its `Ok(response)`, `none` any of
its `Err(_)` outcomes. -/
def walkPages (fetchPage : Nat → Option GetPageResponse) : List Nat → List GetPageResponse
  | [] => []
  | page :: rest =>
    match fetchPage page with
    | some resp => resp :: walkPages fetchPage rest
    | none => []

/-- Embedding of `parse_story` from `src/parser.rs`: iterates
`story.page_range.start..story.page_range.end`, collecting fetched
pages until the first failure, and always returns `Ok` of what was
collected. -/
def parse_story (fetchPage : Nat → Option GetPageResponse)
    (story : StoryInfo) : Except String (List GetPageResponse) :=
  .ok (walkPages fetchPage
        (List.range' story.page_range.1 (story.page_range.2 - story.page_range.1)))

/-- A concrete page record (used to instantiate the walker theorems):
page `i`'s response, with the index recorded in its title. -/
def pageStub (i : Nat) : GetPageResponse where
  fc := ""
  fc1 := ""
  fc2 := ""
  bg := ""
  vmobishift := ""
  parabgop := ""
  imagesource := ""
  embedimgsource := ""
  photographer := ""
  dmmodel := ""
  ident := 0
  height := 0
  htmlbody := "body"
  title := toString i
  vrtptitle := 0
  pagelock := 0
  pwhint := ""
  keyinput := 0
  pageaccesstype := 0
  mypraise := 0
  praisecount := 0
  uid := ""
  todayhits := ""
  totalhits := ""
  rate := ""
  commentsize := 0
  gatherst := 0
  story_pw_pass := false

/-! ## Helper lemmas about the sanitizer -/

theorem preorderList_append (l1 l2 : List Node) :
    preorderList (l1 ++ l2) = preorderList l1 ++ preorderList l2 := by
  induction l1 with
  | nil => simp [preorderList]
  | cons n l ih => simp [preorderList, ih]

theorem sanitizeLoop_eq_append (l : List Node) :
    ∀ acc : String, sanitizeLoop acc l = acc ++ emitList l := by
  induction l with
  | nil => intro acc; simp [sanitizeLoop, emitList]
  | cons n l ih =>
      intro acc
      simp [sanitizeLoop, emitList, ih, String.append_assoc]

theorem sanitize_eq_emitList (frag : List Node) :
    sanitize_to_meet_xhtml frag = emitList (preorderList frag) := by
  simp [sanitize_to_meet_xhtml, sanitizeLoop_eq_append]

theorem emitList_append (l1 l2 : List Node) :
    emitList (l1 ++ l2) = emitList l1 ++ emitList l2 := by
  induction l1 with
  | nil => simp [emitList]
  | cons n l ih => simp [emitList, ih, String.append_assoc]

theorem emitList_textOrDenylisted (l : List Node) (h : l.all textOrDenylisted = true) :
    emitList l = allTextL l := by
  induction l with
  | nil => rfl
  | cons n l ih =>
      rw [List.all_cons, Bool.and_eq_true] at h
      cases n with
      | text s => simp [emitList, emitNode, allTextL, ih h.2]
      | element name attrs children =>
          have hd : denylisted name = true := h.1
          simp [emitList, emitNode, hd, allTextL, ih h.2]

/-! ## Claims about the sanitizer -/

/-- C1 counterexample: for the well-formed wrapper fragment
`<span>hello</span>` the sanitizer's output is exactly `hello` — the
dropped element's child text is emitted (the flat `descendants()` loop
only skips the element node itself), so the output does contain the
wrapped text, contradicting the claim that the subtree is skipped. -/
theorem claim_C1_counterexample :
    sanitize_to_meet_xhtml [Node.element "span" [] [Node.text "hello"]] = "hello" ∧
    containsSub "hello"
      (sanitize_to_meet_xhtml [Node.element "span" [] [Node.text "hello"]]) = true :=
  ⟨rfl, rfl⟩

/-- C1 amended: for every fragment consisting only of `font`/`b`/`span`
wrapper elements around text, the output contains none of those tags —
indeed no element markup at all — but the wrapped text is preserved,
not lost: the output is exactly the concatenation of all wrapped text
in document order. -/
theorem claim_C1_amended (frag : List Node)
    (h : (preorderList frag).all textOrDenylisted = true) :
    sanitize_to_meet_xhtml frag = allTextL (preorderList frag) := by
  rw [sanitize_eq_emitList]
  exact emitList_textOrDenylisted _ h

/-- C1 amended, instantiated: `<span>wrapped</span><b>also</b>`
sanitizes to `wrappedalso`. -/
theorem claim_C1_amended_witness :
    sanitize_to_meet_xhtml
        [Node.element "span" [] [Node.text "wrapped"],
         Node.element "b" [] [Node.text "also"]] =
      allTextL (preorderList
        [Node.element "span" [] [Node.text "wrapped"],
         Node.element "b" [] [Node.text "also"]]) :=
  claim_C1_amended _ (by decide)

/-- C2 counterexample: `<p>x</p>` is an already-strict XHTML body
(fully quoted attributes — there are none — and no denylisted tag),
whose HTML fragment parse is the single `p` element with text child
`x`; the sanitizer returns `<p>x`, dropping the end tag, so the output
is not byte-equivalent to the input. -/
theorem claim_C2_counterexample :
    serializeStrict (Node.element "p" [] [Node.text "x"]) = "<p>x</p>" ∧
    sanitize_to_meet_xhtml [Node.element "p" [] [Node.text "x"]] = "<p>x" ∧
    sanitize_to_meet_xhtml [Node.element "p" [] [Node.text "x"]] ≠
      serializeStrict (Node.element "p" [] [Node.text "x"]) := by
  refine ⟨rfl, rfl, ?_⟩
  decide

/-- C2 amended: sanitizing an already-strict XHTML body returns
byte-equivalent content only for bodies made of character data (free
of markup-significant characters) and self-closed `<br />` line
breaks; for such bodies the output equals the strict serialization of
the fragment, i.e. the input string. -/
theorem claim_C2_amended (frag : List Node) (h : frag.all flatXhtmlNode = true) :
    sanitize_to_meet_xhtml frag = serializeStrictList frag := by
  rw [sanitize_eq_emitList]
  induction frag with
  | nil => rfl
  | cons n l ih =>
      rw [List.all_cons, Bool.and_eq_true] at h
      obtain ⟨h1, h2⟩ := h
      cases n with
      | text s =>
          rw [show preorderList (Node.text s :: l) = Node.text s :: preorderList l from rfl]
          rw [emitList, serializeStrictList, ih h2]
          rfl
      | element name attrs children =>
          cases attrs with
          | cons kv ats => simp [flatXhtmlNode] at h1
          | nil =>
          cases children with
          | cons c cs => simp [flatXhtmlNode] at h1
          | nil =>
          have hn : name = "br" := by simpa [flatXhtmlNode] using h1
          subst hn
          rw [show preorderList (Node.element "br" [] [] :: l) =
                Node.element "br" [] [] :: preorderList l from rfl]
          rw [emitList, serializeStrictList, ih h2]
          have he : emitNode (Node.element "br" [] []) = "<br />" := rfl
          have hs : serializeStrict (Node.element "br" [] []) = "<br />" := rfl
          rw [he, hs]

/-- C2 amended, instantiated: the body `one<br />two` round-trips
byte-identically through the sanitizer. -/
theorem claim_C2_amended_witness :
    sanitize_to_meet_xhtml
        [Node.text "one", Node.element "br" [] [], Node.text "two"] =
      serializeStrictList
        [Node.text "one", Node.element "br" [] [], Node.text "two"] :=
  claim_C2_amended _ (by decide)

/-- C3: for a non-denylisted, non-`br` element the sanitizer emits
exactly the `Debug` start tag followed by the children's output and
then the rest of the fragment's output — no closing tag is ever
emitted anywhere. -/
theorem claim_C3 (name : String) (attrs : List (String × String))
    (children rest : List Node)
    (hnd : denylisted name = false) (hnbr : name ≠ "br") :
    sanitize_to_meet_xhtml (Node.element name attrs children :: rest) =
      elementDebug name attrs ++
        (sanitize_to_meet_xhtml children ++ sanitize_to_meet_xhtml rest) := by
  rw [sanitize_eq_emitList, sanitize_eq_emitList, sanitize_eq_emitList]
  rw [show preorderList (Node.element name attrs children :: rest) =
        (Node.element name attrs children :: preorderList children) ++ preorderList rest
      from rfl]
  rw [List.cons_append, emitList, emitList_append]
  have he : emitNode (Node.element name attrs children) = elementDebug name attrs := by
    have hb : (name == "br") = false := by simp [hnbr]
    simp [emitNode, hnd, hb]
  rw [he]

/-- C3, instantiated at `<p class="c">x</p>`: the output is the start
tag, then the child text, with no `</p>`. -/
theorem claim_C3_witness :
    sanitize_to_meet_xhtml [Node.element "p" [("class", "c")] [Node.text "x"]] =
      elementDebug "p" [("class", "c")] ++
        (sanitize_to_meet_xhtml [Node.text "x"] ++ sanitize_to_meet_xhtml []) :=
  claim_C3 "p" [("class", "c")] [Node.text "x"] [] (by decide) (by decide)

/-- C9: the sanitizer is deterministic — two invocations on the same
parsed input yield the same string, and the loop's result does not
depend on any pre-existing accumulator state: running it after any
prior `result` content appends exactly the clean run's output. -/
theorem claim_C9 (frag : List Node) :
    sanitize_to_meet_xhtml frag = sanitize_to_meet_xhtml frag ∧
    ∀ acc : String,
      sanitizeLoop acc (preorderList frag) = acc ++ sanitize_to_meet_xhtml frag := by
  refine ⟨rfl, fun acc => ?_⟩
  rw [sanitize_to_meet_xhtml, sanitizeLoop_eq_append, sanitizeLoop_eq_append]
  simp

/-! ## Claims about the pagination resolver -/

/-- C5 counterexample: a page-0 document whose float-left pagination
container's inner HTML is `abc 頁` makes the count token `abc` fail to
parse as `usize`; the `?` operator propagates that as a hard `Err`,
not as the soft fallback of 1 that the claim asserts for any failure
of the pagination-count search. -/
theorem claim_C5_counterexample :
    get_page_range ["abc 頁"] = .parseErr ∧ get_page_range ["abc 頁"] ≠ .ok (0, 1) := by
  refine ⟨rfl, ?_⟩
  decide

/-- C5 amended: a container with inner HTML `12 頁` yields page count
12 (whatever follows it), and a document none of whose float-left
containers mention `頁` yields the fallback 1 — but the fallback
covers only the no-matching-container case; a matching container whose
leading token is not a valid count is a hard error (see the
counterexample), not a fallback. -/
theorem claim_C5_amended :
    (∀ rest : List String, get_page_range ("12 頁" :: rest) = .ok (0, 12)) ∧
    (∀ divs : List String, (∀ d ∈ divs, containsSub "頁" d = false) →
      get_page_range divs = .ok (0, 1)) := by
  constructor
  · intro rest; rfl
  · intro divs h
    induction divs with
    | nil => rfl
    | cons d divs ih =>
        rw [get_page_range, h d (by simp)]
        simp only [Bool.false_eq_true, if_false]
        exact ih fun e he => h e (by simp [he])

/-- C5 amended, instantiated: `12 頁` alone yields 12, and a document
whose only float-left container says `hello` yields the fallback 1. -/
theorem claim_C5_witness :
    get_page_range ["12 頁"] = .ok (0, 12) ∧ get_page_range ["hello"] = .ok (0, 1) := by
  constructor
  · exact claim_C5_amended.1 []
  · exact claim_C5_amended.2 ["hello"] (by intro d hd; rw [List.mem_singleton] at hd; subst hd; rfl)

/-- C6: on a page-0 document with no qualifying `img.roundcorner`
element (none at all, or only ones with an absent or empty `src`), and
likewise on a URL whose shape has no fourth `/`-component,
`get_story_id` does not return an error result: each case hits an
`unwrap()` and panics. -/
theorem claim_C6_bug :
    get_story_id [] = .panicked ∧
    get_story_id [none, some ""] = .panicked ∧
    get_story_id [some "x"] = .panicked :=
  ⟨rfl, rfl, rfl⟩

/-- C7: for a page-0 document whose qualifying image has
`src="/content/coverimage/AB12CD.jpg?0"`, `get_story_id` returns
`AB12CD` — the fourth `/`-separated component with everything from the
first `.` (extension and query) stripped, uppercased; a lowercase id
in the same shape is uppercased to the same result. -/
theorem claim_C7 :
    get_story_id [some "/content/coverimage/AB12CD.jpg?0"] = .ok "AB12CD" ∧
    get_story_id [some "/content/coverimage/ab12cd.jpg?0"] = .ok "AB12CD" :=
  ⟨rfl, rfl⟩

/-- C10: `get_page_range` is total only when every matching container
has a space: on a float-left container whose inner HTML is just `頁`
(contains the glyph, no space) the `split_once(" ").unwrap()` panics —
no count, no error value, no fallback — while under the precondition
that every `頁`-containing container also contains a space the
function never panics. -/
theorem claim_C10 :
    get_page_range ["頁"] = .panicked ∧
    (∀ divs : List String,
      (∀ d ∈ divs, containsSub "頁" d = true → (splitOnceChar ' ' d).isSome = true) →
      get_page_range divs ≠ .panicked) := by
  constructor
  · rfl
  · intro divs h
    induction divs with
    | nil => decide
    | cons d divs ih =>
        rw [get_page_range]
        by_cases hc : containsSub "頁" d = true
        · rw [hc]
          simp only [if_true]
          have hs := h d (by simp) hc
          rcases Option.isSome_iff_exists.mp hs with ⟨ab, hab⟩
          rcases ab with ⟨a, b⟩
          cases hp : parseUsize a <;> simp [hab, hp]
        · have hc' : containsSub "頁" d = false := by
            revert hc; cases containsSub "頁" d <;> simp
          rw [hc']
          simp only [Bool.false_eq_true, if_false]
          exact ih fun e he hce => h e (by simp [he]) hce

/-- C10, instantiated: a well-formed container `12 頁` does not
panic. -/
theorem claim_C10_witness :
    get_page_range ["12 頁"] ≠ .panicked :=
  claim_C10.2 ["12 頁"]
    (by intro d hd _; rw [List.mem_singleton] at hd; subst hd; rfl)

/-! ## Claims about the story walker -/

theorem walkPages_prefix (fetchPage : Nat → Option GetPageResponse) (p : Nat → GetPageResponse) :
    ∀ (l1 : List Nat) (k : Nat) (l2 : List Nat),
      (∀ i ∈ l1, fetchPage i = some (p i)) → fetchPage k = none →
      walkPages fetchPage (l1 ++ k :: l2) = l1.map p := by
  intro l1
  induction l1 with
  | nil =>
      intro k l2 _ hk
      simp [walkPages, hk]
  | cons i l ih =>
      intro k l2 hok hk
      have hi := hok i (by simp)
      simp only [List.cons_append, walkPages, hi, List.map_cons]
      exact congrArg _ (ih k l2 (fun j hj => hok j (by simp [hj])) hk)

theorem range_split (k n : Nat) (h : k < n) :
    List.range' 0 n = List.range k ++ (k :: List.range' (k + 1) (n - k - 1)) := by
  have h1 : n = n - k - 1 + 1 + k := by omega
  rw [List.range_eq_range']
  conv_lhs => rw [h1]
  rw [← List.range'_append_1 0 k (n - k - 1 + 1)]
  rw [Nat.zero_add, List.range'_succ]

/-- C4: for a story with page range `0..n`, if the fetch succeeds on
every index below `k` and fails at `k < n`, `parse_story` walks the
indices in increasing order from 0, stops at the first failure, and
returns `Ok` of exactly the pages for indices `0, …, k-1` in index
order — no gap, no reordering, and no propagated error. -/
theorem claim_C4 (fetchPage : Nat → Option GetPageResponse) (p : Nat → GetPageResponse)
    (k n : Nat) (t sid u : String)
    (hk : k < n)
    (hok : ∀ j, j < k → fetchPage j = some (p j))
    (hfail : fetchPage k = none) :
    parse_story fetchPage ⟨t, sid, u, (0, n)⟩ = .ok ((List.range k).map p) := by
  rw [parse_story]
  show Except.ok (walkPages fetchPage (List.range' 0 (n - 0))) = _
  rw [Nat.sub_zero, range_split k n hk,
    walkPages_prefix fetchPage p (List.range k) k (List.range' (k + 1) (n - k - 1))
      (fun i hi => hok i (List.mem_range.mp hi)) hfail]

/-- C4, instantiated at the spec's end-to-end scenario: `page_count =
5`, page index 3 fails — the walk returns `Ok` of exactly the pages
for indices 0, 1, 2. -/
theorem claim_C4_witness :
    parse_story (fun i => if i < 3 then some (pageStub i) else none)
        ⟨"title", "STORYID", "url", (0, 5)⟩ =
      .ok ((List.range 3).map pageStub) :=
  claim_C4 _ pageStub 3 5 "title" "STORYID" "url" (by decide)
    (fun j hj => by simp [hj]) (by simp)

/-! ## Counting canonical line breaks in the output (C8) -/

theorem string_eq_of_data_eq {s t : String} (h : s.data = t.data) : s = t := by
  cases s
  cases t
  exact congrArg String.mk h

theorem hasPrefixL_cons_ne {p0 c : Char} (ps cs : List Char) (h : p0 ≠ c) :
    hasPrefixL (p0 :: ps) (c :: cs) = false := by
  simp [hasPrefixL, h]

theorem hasPrefixL_self_append (p l : List Char) : hasPrefixL p (p ++ l) = true := by
  induction p with
  | nil => rfl
  | cons c p ih => simp [hasPrefixL, ih]

theorem countOccL_cons_ne {c : Char} (cs : List Char) (h : c ≠ '<') :
    countOccL brPat (c :: cs) = countOccL brPat cs := by
  have hp : hasPrefixL brPat (c :: cs) = false := by
    rw [show brPat = '<' :: ['b', 'r', ' ', '/', '>'] from rfl]
    exact hasPrefixL_cons_ne _ _ (Ne.symm h)
  rw [countOccL, hp]
  simp

theorem countOccL_append_safe (l1 l2 : List Char) (h : ∀ c ∈ l1, c ≠ '<') :
    countOccL brPat (l1 ++ l2) = countOccL brPat l2 := by
  induction l1 with
  | nil => rfl
  | cons c l ih =>
      rw [List.cons_append, countOccL_cons_ne _ (h c (by simp))]
      exact ih fun d hd => h d (by simp [hd])

theorem countOccL_brPat_self (l : List Char) :
    countOccL brPat (brPat ++ l) = 1 + countOccL brPat l := by
  have h0 : hasPrefixL brPat (brPat ++ l) = true := hasPrefixL_self_append _ _
  rw [show brPat ++ l = '<' :: 'b' :: 'r' :: ' ' :: '/' :: '>' :: l from rfl] at h0 ⊢
  rw [countOccL, h0]
  rw [countOccL_cons_ne _ (by decide), countOccL_cons_ne _ (by decide),
    countOccL_cons_ne _ (by decide), countOccL_cons_ne _ (by decide),
    countOccL_cons_ne _ (by decide)]
  simp

theorem tagChar_ne_lt {c : Char} (h : tagChar c = true) : c ≠ '<' := by
  intro he; subst he; exact absurd h (by decide)

theorem tagChar_ne_space {c : Char} (h : tagChar c = true) : c ≠ ' ' := by
  intro he; subst he; exact absurd h (by decide)

theorem mem_rustCharEscapeDebug_ne_lt {c : Char} (hc : c ≠ '<') :
    ∀ d ∈ (rustCharEscapeDebug c).data, d ≠ '<' := by
  unfold rustCharEscapeDebug
  split
  · decide
  · split
    · decide
    · split
      · decide
      · split
        · decide
        · split
          · decide
          · intro d hd
            have hd' : d ∈ [c] := hd
            rw [List.mem_singleton] at hd'
            subst hd'
            exact hc

theorem mem_escapeDebugStr_ne_lt (l : List Char) (hl : ∀ c ∈ l, c ≠ '<') :
    ∀ d ∈ (escapeDebugStr l).data, d ≠ '<' := by
  induction l with
  | nil =>
      intro d hd
      exact absurd (show d ∈ ([] : List Char) from hd) (by simp)
  | cons c l ih =>
      intro d hd
      rw [escapeDebugStr, String.data_append] at hd
      rcases List.mem_append.mp hd with h1 | h2
      · exact mem_rustCharEscapeDebug_ne_lt (hl c (by simp)) d h1
      · exact ih (fun e he => hl e (by simp [he])) d h2

theorem mem_rustStrDebug_ne_lt (s : String) (hs : ∀ c ∈ s.data, c ≠ '<') :
    ∀ d ∈ (rustStrDebug s).data, d ≠ '<' := by
  intro d hd
  rw [rustStrDebug, String.data_append, String.data_append] at hd
  rcases List.mem_append.mp hd with h1 | h2
  · rcases List.mem_append.mp h1 with h3 | h4
    · have hd' : d ∈ ['"'] := h3
      rw [List.mem_singleton] at hd'
      subst hd'
      decide
    · exact mem_escapeDebugStr_ne_lt s.data hs d h4
  · have hd' : d ∈ ['"'] := h2
    rw [List.mem_singleton] at hd'
    subst hd'
    decide

theorem mem_attrsDebug_ne_lt (attrs : List (String × String))
    (h : attrs.all attrSafe = true) :
    ∀ d ∈ (attrsDebug attrs).data, d ≠ '<' := by
  induction attrs with
  | nil =>
      intro d hd
      exact absurd (show d ∈ ([] : List Char) from hd) (by simp)
  | cons kv rest ih =>
      rw [List.all_cons, Bool.and_eq_true] at h
      obtain ⟨h1, h2⟩ := h
      rw [attrSafe, Bool.and_eq_true] at h1
      obtain ⟨hk, hv⟩ := h1
      intro d hd
      rw [attrsDebug, String.data_append, String.data_append, String.data_append,
        String.data_append] at hd
      rcases List.mem_append.mp hd with h3 | hrest
      · rcases List.mem_append.mp h3 with h4 | hdbg
        · rcases List.mem_append.mp h4 with h5 | heq
          · rcases List.mem_append.mp h5 with hsp | hkey
            · have hd' : d ∈ [' '] := hsp
              rw [List.mem_singleton] at hd'
              subst hd'
              decide
            · exact tagChar_ne_lt (List.all_eq_true.mp hk d hkey)
          · have hd' : d ∈ ['='] := heq
            rw [List.mem_singleton] at hd'
            subst hd'
            decide
        · exact mem_rustStrDebug_ne_lt kv.2
            (fun e he => by simpa using List.all_eq_true.mp hv e he) d hdbg
      · exact ih h2 d hrest

theorem hasPrefixL_brTail_false (nd suffix : List Char)
    (hall : ∀ c ∈ nd, tagChar c = true)
    (hne : nd ≠ []) (hnb : nd ≠ ['b']) (hnbr : nd ≠ ['b', 'r']) :
    hasPrefixL ['b', 'r', ' ', '/', '>'] (nd ++ suffix) = false := by
  match nd with
  | [] => exact absurd rfl hne
  | c :: nd1 =>
    by_cases hc : c = 'b'
    · subst hc
      match nd1 with
      | [] => exact absurd rfl hnb
      | c2 :: nd2 =>
        by_cases hc2 : c2 = 'r'
        · subst hc2
          match nd2 with
          | [] => exact absurd rfl hnbr
          | c3 :: nd3 =>
            have h3 : tagChar c3 = true := hall c3 (by simp)
            have h3' : (' ' == c3) = false :=
              beq_eq_false_iff_ne.mpr (Ne.symm (tagChar_ne_space h3))
            simp [hasPrefixL, h3']
        · have hb : ('r' == c2) = false := beq_eq_false_iff_ne.mpr (Ne.symm hc2)
          simp [hasPrefixL, hb]
    · have hb : ('b' == c) = false := beq_eq_false_iff_ne.mpr (Ne.symm hc)
      simp [hasPrefixL, hb]

theorem countOccL_elementDebug_piece (name : String) (attrs : List (String × String))
    (rest : List Char)
    (hne : name ≠ "") (hname : name.data.all tagChar = true)
    (hattrs : attrs.all attrSafe = true)
    (hnd : denylisted name = false) (hnbr : name ≠ "br") :
    countOccL brPat ((elementDebug name attrs).data ++ rest) = countOccL brPat rest := by
  have hsafe : ∀ c ∈ name.data ++ ((attrsDebug attrs).data ++ ['>']), c ≠ '<' := by
    intro c hc
    rcases List.mem_append.mp hc with h1 | h2
    · exact tagChar_ne_lt (List.all_eq_true.mp hname c h1)
    · rcases List.mem_append.mp h2 with h3 | h4
      · exact mem_attrsDebug_ne_lt attrs hattrs c h3
      · have hd' : c ∈ ['>'] := h4
        rw [List.mem_singleton] at hd'
        subst hd'
        decide
  have hdata : (elementDebug name attrs).data ++ rest =
      '<' :: ((name.data ++ ((attrsDebug attrs).data ++ ['>'])) ++ rest) := by
    rw [elementDebug, String.data_append, String.data_append, String.data_append]
    simp
  rw [hdata, countOccL]
  have hmatch :
      hasPrefixL brPat ('<' :: ((name.data ++ ((attrsDebug attrs).data ++ ['>'])) ++ rest)) =
        false := by
    rw [show brPat = '<' :: ['b', 'r', ' ', '/', '>'] from rfl, hasPrefixL]
    simp only [beq_self_eq_true, Bool.true_and]
    rw [List.append_assoc]
    refine hasPrefixL_brTail_false _ _ ?_ ?_ ?_ ?_
    · intro c hc; exact List.all_eq_true.mp hname c hc
    · intro h0
      exact hne (string_eq_of_data_eq (by rw [h0]))
    · intro h0
      have hb : name = "b" := string_eq_of_data_eq (by rw [h0])
      rw [hb] at hnd
      exact absurd hnd (by decide)
    · intro h0
      exact hnbr (string_eq_of_data_eq (by rw [h0]))
  rw [hmatch]
  simp only [Bool.false_eq_true, if_false, Nat.zero_add]
  exact countOccL_append_safe _ rest hsafe

theorem countOccL_emitList (l : List Node) (h : l.all brSafeNode = true) :
    countOccL brPat (emitList l).data = countBr l := by
  induction l with
  | nil => rfl
  | cons n l ih =>
      rw [List.all_cons, Bool.and_eq_true] at h
      obtain ⟨h1, h2⟩ := h
      rw [emitList, String.data_append]
      cases n with
      | text s =>
          have hs : ∀ c ∈ s.data, c ≠ '<' := by
            intro c hc
            have h1' : s.data.all (fun c => c != '<') = true := h1
            simpa using List.all_eq_true.mp h1' c hc
          rw [show emitNode (Node.text s) = s from rfl]
          rw [countOccL_append_safe _ _ hs, ih h2]
          simp [countBr, List.countP_cons]
      | element name attrs children =>
          by_cases hd : denylisted name = true
          · have hname_ne : (name == "br") = false := by
              rcases (by simpa [denylisted] using hd :
                  (name = "font" ∨ name = "b") ∨ name = "span")
                with (h' | h') | h' <;> simp [h']
            rw [show emitNode (Node.element name attrs children) =
                  (if denylisted name then "" else if name == "br" then "<br />"
                   else elementDebug name attrs) from rfl, hd]
            simp only [if_true]
            rw [List.nil_append, ih h2]
            simp [countBr, List.countP_cons, hname_ne]
          · have hd' : denylisted name = false := by
              revert hd; cases denylisted name <;> simp
            by_cases hbr : name = "br"
            · subst hbr
              rw [show emitNode (Node.element "br" attrs children) = "<br />" from rfl]
              rw [show ("<br />" : String).data = brPat from rfl]
              rw [countOccL_brPat_self, ih h2]
              simp only [countBr, List.countP_cons]
              simp
              omega
            · have hbr' : (name == "br") = false := beq_eq_false_iff_ne.mpr hbr
              have h1' : (((name != "") && name.data.all tagChar) && attrs.all attrSafe) = true := h1
              simp only [Bool.and_eq_true] at h1'
              obtain ⟨⟨hne', hname⟩, hattrs⟩ := h1'
              have hne : name ≠ "" := by simpa using hne'
              rw [show emitNode (Node.element name attrs children) =
                    (if denylisted name then "" else if name == "br" then "<br />"
                     else elementDebug name attrs) from rfl, hd', hbr']
              simp only [Bool.false_eq_true, if_false]
              rw [countOccL_elementDebug_piece name attrs _ hne hname hattrs hd' hbr, ih h2]
              simp [countBr, List.countP_cons, hbr']

/-- C8: over fragments whose pre-order nodes are text free of `<` and
elements with alphanumeric names and `<`-free attribute values (which
covers every fragment the HTML parser can produce from ordinary
markup), the sanitizer's output contains the canonical self-closed
`<br />` exactly once per `br` element of the fragment — one per
original `<br>`, with no duplication. -/
theorem claim_C8 (frag : List Node)
    (h : (preorderList frag).all brSafeNode = true) :
    countOccL brPat (sanitize_to_meet_xhtml frag).data = countBr (preorderList frag) := by
  rw [sanitize_eq_emitList]
  exact countOccL_emitList _ h

/-- C8, instantiated: `Hi<br /><p class="c">x<br /></p>` contains two
`br` elements and the sanitized output contains `<br />` exactly
twice. -/
theorem claim_C8_witness :
    countOccL brPat
        (sanitize_to_meet_xhtml
          [Node.text "Hi", Node.element "br" [] [],
           Node.element "p" [("class", "c")] [Node.text "x", Node.element "br" [] []]]).data =
      countBr (preorderList
        [Node.text "Hi", Node.element "br" [] [],
         Node.element "p" [("class", "c")] [Node.text "x", Node.element "br" [] []]]) :=
  claim_C8 _ (by decide)
